import Mathlib

/-
Verification development for the cpfinder duplicate-line detector
(src/main.rs).  The core of the program is embedded shallowly:

* lines are lists of characters; a file is a list of raw lines
  (the newline-delimited decomposition that `read_line` produces);
* `TrieNode` mirrors the Rust `TrieNode` (a character trie whose
  `children` HashMap is modelled as an association list; only keyed
  lookup and keyed update are used by the program, so iteration order
  of the map is irrelevant);
* `processLine` / `parseLines` / `parse` mirror the body of the Rust
  `parse` function: trimming, the comment-mode updates, the
  should-index test, the trie insertion, and the duplicate-run
  accumulator, in the order the source performs them;
* `scanGo` / `scanAll` mirror the file loop of `main`, where
  `parse(...).ok()` discards any I/O error; a `SourceFile` records
  whether `File::open` succeeded (`openOk`) and whether `read_line`
  failed after the recorded lines had been read (`readFails`);
* `sortByLen` / `rankReport` mirror `sort_by_key` (a stable ascending
  sort by span length, implemented here as stable insertion sort),
  `reverse`, and the `[0..min(len, top)]` truncation of `main`.

Machine integers: the Rust code uses `usize` counters that only ever
grow by small per-line increments, far from overflow for any input the
tool can read; they are modelled as `Nat`.  `line.len()` is the UTF-8
byte length of the trimmed line and is modelled by `lineLen`, the sum
of `Char.utf8Size` over the line's characters.
-/

/-- Character-list embedding of Rust `str::trim`: drop leading and
trailing whitespace characters. -/
def trimChars (l : List Char) : List Char :=
  ((l.dropWhile Char.isWhitespace).reverse.dropWhile Char.isWhitespace).reverse

/-- Character-list embedding of Rust `str::starts_with`. -/
def startsWithC : List Char → List Char → Bool
  | [], _ => true
  | _ :: _, [] => false
  | p :: ps, c :: cs => p == c && startsWithC ps cs

/-- Character-list embedding of Rust `str::ends_with`. -/
def endsWithC (p l : List Char) : Bool :=
  startsWithC p.reverse l.reverse

/-- Embedding of Rust `String::len` on a trimmed line: the UTF-8 byte
length, i.e. the sum of the UTF-8 sizes of the characters. -/
def lineLen (l : List Char) : Nat :=
  (l.map Char.utf8Size).sum

/-- The block-comment opener recognised at line 191 of main.rs. -/
def blockOpen : List Char := "/*".data

/-- The block-comment closer recognised at line 194 of main.rs. -/
def blockClose : List Char := "*/".data

/-- The line-comment marker recognised at line 198 of main.rs. -/
def lineMarker : List Char := "//".data

/-- The character trie of main.rs (struct TrieNode): a map from
characters to child nodes plus an occurrence counter.  The HashMap is
modelled as an association list. -/
inductive TrieNode where
  | mk (children : List (Char × TrieNode)) (occurence : Nat)

/-- Fresh trie node, as `TrieNode::new`. -/
def TrieNode.new : TrieNode := .mk [] 0

/-- Keyed lookup in the association list modelling the children map. -/
def findChild (c : Char) : List (Char × TrieNode) → Option TrieNode
  | [] => none
  | (k, t) :: rest => if k = c then some t else findChild c rest

/-- Keyed update in the association list modelling the children map
(replace the binding if present, append it otherwise), as
`HashMap::entry(..).or_insert(..)` followed by mutation of the entry. -/
def setChild (c : Char) (t : TrieNode) : List (Char × TrieNode) → List (Char × TrieNode)
  | [] => [(c, t)]
  | (k, u) :: rest => if k = c then (c, t) :: rest else (k, u) :: setChild c t rest

/-- Embedding of `TrieNode::insert`: walk the word character by
character, creating missing children, then increment the terminal
node's occurrence counter and return its new value. -/
def TrieNode.insert : TrieNode → List Char → TrieNode × Nat
  | .mk ch occ, [] => (.mk ch (occ + 1), occ + 1)
  | .mk ch occ, c :: cs =>
      (.mk (setChild c (TrieNode.insert ((findChild c ch).getD TrieNode.new) cs).1 ch) occ,
       (TrieNode.insert ((findChild c ch).getD TrieNode.new) cs).2)

/-- Occurrence count stored at the terminal node of a word (0 when the
path does not exist).  This is the observation function for the trie;
it does not appear in the source but is determined by it. -/
def TrieNode.lookup : TrieNode → List Char → Nat
  | .mk _ occ, [] => occ
  | .mk ch _, c :: cs =>
      match findChild c ch with
      | none => 0
      | some t => TrieNode.lookup t cs

/-- Repeated insertion of one word; returns the list of counts that the
successive `insert` calls return, in order. -/
def insertTimes : TrieNode → List Char → Nat → TrieNode × List Nat
  | t, _, 0 => (t, [])
  | t, w, n + 1 =>
      ((insertTimes (t.insert w).1 w n).1,
       (t.insert w).2 :: (insertTimes (t.insert w).1 w n).2)

/-- A reported duplicate span, struct CPLocation of main.rs (`end` is a
Lean keyword, so the field is named `endL`). -/
structure CPLocation where
  filepath : String
  start : Nat
  endL : Nat
deriving DecidableEq

/-- The per-file mutable scan variables of the Rust `parse` loop
(`comments`, `cp_found`, `start`, `end`, `char_count`). -/
structure ScanState where
  comments : Bool
  cp_found : Bool
  start : Nat
  endL : Nat
  char_count : Nat
deriving DecidableEq

/-- Lines 216-238 of main.rs: the duplicate-run accumulator step.
Given the freshly computed `next_cp_found` flag and the trimmed line's
byte length, extend or open a run, or close the current run and emit a
span when both thresholds are met. -/
def accumStep (filepath : String) (min_line_count min_char_count : Nat)
    (st : ScanState) (locs : List CPLocation) (line_num : Nat)
    (next_cp_found : Bool) (len : Nat) : ScanState × List CPLocation :=
  if next_cp_found then
    (⟨st.comments, true, if st.cp_found then st.start else line_num, line_num,
      st.char_count + len⟩, locs)
  else
    (⟨st.comments, false, st.start, st.endL, 0⟩,
     if st.cp_found then
       if min_line_count ≤ st.endL - st.start + 1 ∧ min_char_count ≤ st.char_count then
         locs ++ [⟨filepath, st.start, st.endL⟩]
       else locs
     else locs)

/-- Lines 191-200 of main.rs: the comment-mode updates performed on the
trimmed line, in source order (block opener sets the flag, block closer
clears it, line marker sets it). -/
def commentsAfter (comments : Bool) (line : List Char) : Bool :=
  let c1 := if startsWithC blockOpen line then true else comments
  let c2 := if endsWithC blockClose line then false else c1
  if startsWithC lineMarker line then true else c2

/-- Line 202 of main.rs: `should_index = !comments && !line.is_empty()`,
evaluated after the comment-mode updates. -/
def eligible (comments : Bool) (line : List Char) : Bool :=
  !comments && !line.isEmpty

/-- Lines 204-214 of main.rs: the `next_cp_found` flag of one line — an
eligible line is inserted into the trie and is a duplicate when its
returned occurrence count exceeds 1; an ineligible line is never a
duplicate. -/
def dupFlag (root : TrieNode) (comments : Bool) (line : List Char) : Bool :=
  if eligible comments line then decide (1 < (root.insert line).2) else false

/-- The trie after one line: updated by the insertion exactly when the
line was eligible for indexing. -/
def nextRoot (root : TrieNode) (comments : Bool) (line : List Char) : TrieNode :=
  if eligible comments line then (root.insert line).1 else root

/-- One iteration of the `parse` loop of main.rs on a raw physical
line: trim, update comment mode, index if eligible, and run the
accumulator step. -/
def processLine (filepath : String) (min_line_count min_char_count : Nat)
    (root : TrieNode) (st : ScanState) (locs : List CPLocation)
    (line_num : Nat) (raw : List Char) : TrieNode × ScanState × List CPLocation :=
  let line := trimChars raw
  let cm := commentsAfter st.comments line
  let r := accumStep filepath min_line_count min_char_count
    ⟨cm, st.cp_found, st.start, st.endL, st.char_count⟩ locs line_num
    (dupFlag root cm line) (lineLen line)
  (nextRoot root cm line, r.1, r.2)

/-- The read loop of `parse` (lines 182-241 of main.rs): process the
raw lines in order, incrementing `line_num`.  When the line list is
exhausted (`read_line` returns 0) the loop simply breaks: no closing
step runs at end of file. -/
def parseLines (filepath : String) (min_line_count min_char_count : Nat) :
    TrieNode → ScanState → List CPLocation → Nat → List (List Char) →
    TrieNode × ScanState × List CPLocation
  | root, st, locs, _, [] => (root, st, locs)
  | root, st, locs, line_num, raw :: rest =>
      parseLines filepath min_line_count min_char_count
        (processLine filepath min_line_count min_char_count root st locs line_num raw).1
        (processLine filepath min_line_count min_char_count root st locs line_num raw).2.1
        (processLine filepath min_line_count min_char_count root st locs line_num raw).2.2
        (line_num + 1) rest

/-- The Rust `parse` function on the successfully read lines of one
file: scan from the initial per-file state (line numbers start at 1)
and return the updated shared trie and span list. -/
def parse (filepath : String) (root : TrieNode) (cp_locations : List CPLocation)
    (min_line_count min_char_count : Nat) (content : List (List Char)) :
    TrieNode × List CPLocation :=
  ((parseLines filepath min_line_count min_char_count root
      ⟨false, false, 0, 0, 0⟩ cp_locations 1 content).1,
   (parseLines filepath min_line_count min_char_count root
      ⟨false, false, 0, 0, 0⟩ cp_locations 1 content).2.2)

/-- One input file as the scan loop of `main` sees it: `openOk` records
whether `File::open` succeeded; `lines` are the lines successfully read
by `read_line`; `readFails` records whether `read_line` then returned
an error (after `lines` had already been processed). -/
structure SourceFile where
  path : String
  openOk : Bool
  lines : List (List Char)
  readFails : Bool

/-- Effect of one `parse(..)` call from `main`: an open failure returns
early with nothing changed; otherwise the lines that were read are
processed (an error from a later `read_line` propagates out of `parse`
via `?` but the mutations already made to the trie and the span list
remain). -/
def parseFile (min_line_count min_char_count : Nat) (root : TrieNode)
    (locs : List CPLocation) (f : SourceFile) : TrieNode × List CPLocation :=
  if f.openOk then
    parse f.path root locs min_line_count min_char_count f.lines
  else (root, locs)

/-- The file loop of `main` (lines 273-284 of main.rs): each file is
parsed with the shared trie and shared span list; the `Result` of
`parse` is discarded by `.ok()` and the loop continues regardless. -/
def scanGo (min_line_count min_char_count : Nat) :
    TrieNode → List CPLocation → List SourceFile → List CPLocation
  | _, locs, [] => locs
  | root, locs, f :: fs =>
      scanGo min_line_count min_char_count
        (parseFile min_line_count min_char_count root locs f).1
        (parseFile min_line_count min_char_count root locs f).2 fs

/-- The whole scan of `main`: a fresh trie and empty span list threaded
through every file. -/
def scanAll (min_line_count min_char_count : Nat) (files : List SourceFile) :
    List CPLocation :=
  scanGo min_line_count min_char_count TrieNode.new [] files

/-- Span length, the sort key `l.end - l.start + 1` of main.rs. -/
def spanLen (l : CPLocation) : Nat := l.endL - l.start + 1

/-- Stable insertion of a span into a list sorted ascending by span
length: the new element goes before the first strictly larger key, so
among equal keys earlier elements stay earlier. -/
def insertSorted (x : CPLocation) : List CPLocation → List CPLocation
  | [] => [x]
  | y :: ys => if spanLen x ≤ spanLen y then x :: y :: ys else y :: insertSorted x ys

/-- Embedding of `cp_locations.sort_by_key(|l| l.end - l.start + 1)`:
Rust's slice sort is a stable ascending sort by the key, realised here
as stable insertion sort. -/
def sortByLen : List CPLocation → List CPLocation
  | [] => []
  | x :: xs => insertSorted x (sortByLen xs)

/-- Lines 286-289 of main.rs: stable-sort ascending by span length,
reverse, and keep the slice `[0 .. min(len, top)]`. -/
def rankReport (locs : List CPLocation) (top : Nat) : List CPLocation :=
  ((sortByLen locs).reverse).take (min locs.length top)

/-- The accumulator of `parse` run on a bare stream of
(next_cp_found, trimmed byte length) pairs — the span-accumulator
component in isolation, used to state the windowing claims. -/
def runAccum (filepath : String) (min_line_count min_char_count : Nat) :
    ScanState → List CPLocation → Nat → List (Bool × Nat) →
    ScanState × List CPLocation
  | st, locs, _, [] => (st, locs)
  | st, locs, n, (b, len) :: rest =>
      runAccum filepath min_line_count min_char_count
        (accumStep filepath min_line_count min_char_count st locs n b len).1
        (accumStep filepath min_line_count min_char_count st locs n b len).2
        (n + 1) rest

/-- Spans of lengths 3, 10, 1 and 7, the ranking example of the spec. -/
def demoSpans : List CPLocation :=
  [⟨"a", 1, 3⟩, ⟨"b", 1, 10⟩, ⟨"c", 1, 1⟩, ⟨"d", 1, 7⟩]

/-- Eight distinct 12-character lines (96 bytes in total), the
two-file scenario of the spec. -/
def lines8 : List (List Char) :=
  ["aaaabbbbccc0".data, "aaaabbbbccc1".data, "aaaabbbbccc2".data,
   "aaaabbbbccc3".data, "aaaabbbbccc4".data, "aaaabbbbccc5".data,
   "aaaabbbbccc6".data, "aaaabbbbccc7".data]

/-
Trie lemmas: the association-list operations behave as a keyed map, and
`insert` touches exactly the terminal node of the inserted word.
-/

theorem findChild_setChild_self (c : Char) (t : TrieNode) :
    ∀ l : List (Char × TrieNode), findChild c (setChild c t l) = some t := by
  intro l
  induction l with
  | nil => simp [findChild, setChild]
  | cons kv rest ih =>
      obtain ⟨k, u⟩ := kv
      by_cases hk : k = c
      · simp [findChild, setChild, hk]
      · simp [findChild, setChild, hk, ih]

theorem findChild_setChild_ne (c c' : Char) (t : TrieNode) (h : c' ≠ c) :
    ∀ l : List (Char × TrieNode), findChild c' (setChild c t l) = findChild c' l := by
  intro l
  induction l with
  | nil => simp [findChild, setChild, Ne.symm h]
  | cons kv rest ih =>
      obtain ⟨k, u⟩ := kv
      by_cases hk : k = c
      · subst hk
        simp [findChild, setChild, h, Ne.symm h]
      · by_cases hk' : k = c'
        · simp [findChild, setChild, hk, hk', h]
        · simp [findChild, setChild, hk, hk', ih]

theorem lookup_new (w : List Char) : TrieNode.new.lookup w = 0 := by
  cases w with
  | nil => rfl
  | cons c cs => simp [TrieNode.new, TrieNode.lookup, findChild]

theorem insert_ret :
    ∀ (w : List Char) (t : TrieNode), (t.insert w).2 = t.lookup w + 1 := by
  intro w
  induction w with
  | nil => intro t; cases t; simp [TrieNode.insert, TrieNode.lookup]
  | cons c cs ih =>
      intro t; cases t with
      | mk ch occ =>
        cases h : findChild c ch with
        | none => simp [TrieNode.insert, TrieNode.lookup, h, ih, lookup_new]
        | some u => simp [TrieNode.insert, TrieNode.lookup, h, ih]

theorem lookup_insert_self :
    ∀ (w : List Char) (t : TrieNode), (t.insert w).1.lookup w = t.lookup w + 1 := by
  intro w
  induction w with
  | nil => intro t; cases t; simp [TrieNode.insert, TrieNode.lookup]
  | cons c cs ih =>
      intro t; cases t with
      | mk ch occ =>
        cases h : findChild c ch with
        | none =>
            simp [TrieNode.insert, TrieNode.lookup, h, findChild_setChild_self, ih, lookup_new]
        | some u =>
            simp [TrieNode.insert, TrieNode.lookup, h, findChild_setChild_self, ih]

theorem lookup_insert_ne :
    ∀ (w w' : List Char) (t : TrieNode), w ≠ w' →
      (t.insert w).1.lookup w' = t.lookup w' := by
  intro w
  induction w with
  | nil =>
      intro w' t hne; cases t with
      | mk ch occ =>
        cases w' with
        | nil => exact absurd rfl hne
        | cons c' cs' => simp [TrieNode.insert, TrieNode.lookup]
  | cons c cs ih =>
      intro w' t hne; cases t with
      | mk ch occ =>
        cases w' with
        | nil => simp [TrieNode.insert, TrieNode.lookup]
        | cons c' cs' =>
            by_cases hc : c' = c
            · subst hc
              have hcs : cs ≠ cs' := by
                intro h; exact hne (by rw [h])
              cases h : findChild c' ch with
              | none =>
                  simp [TrieNode.insert, TrieNode.lookup, h, findChild_setChild_self,
                        ih cs' _ hcs, lookup_new]
              | some u =>
                  simp [TrieNode.insert, TrieNode.lookup, h, findChild_setChild_self,
                        ih cs' _ hcs]
            · simp [TrieNode.insert, TrieNode.lookup, findChild_setChild_ne c c' _ hc]

theorem insertTimes_counts :
    ∀ (n : Nat) (t : TrieNode) (w : List Char),
      (insertTimes t w n).2 = (List.range n).map (fun i => t.lookup w + i + 1) := by
  intro n
  induction n with
  | zero => intro t w; simp [insertTimes]
  | succ m ih =>
      intro t w
      have hrange := List.range_succ_eq_map m
      simp only [insertTimes, ih, insert_ret, lookup_insert_self, hrange,
        List.map_cons, List.map_map]
      refine congrArg₂ List.cons (by omega) (List.map_congr_left ?_)
      intro a _
      simp only [Function.comp_apply]
      omega

/-- C3: inserting the same exact line text N times into a fresh trie
returns the occurrence counts 1, 2, ..., N in that order. -/
theorem C3_insert_counts (w : List Char) (n : Nat) :
    (insertTimes TrieNode.new w n).2 = (List.range n).map (fun i => i + 1) := by
  rw [insertTimes_counts, lookup_new]
  simp

/-- C7: for distinct texts A and B = A ++ rest with A a proper prefix
of B, inserting A then B into a fresh trie returns count 1 both times,
and afterwards both terminal counts are 1: the shared prefix path does
not leak counts between the two words. -/
theorem C7_prefix_no_leak (A rest : List Char) (h : rest ≠ []) :
    (TrieNode.new.insert A).2 = 1 ∧
    ((TrieNode.new.insert A).1.insert (A ++ rest)).2 = 1 ∧
    (((TrieNode.new.insert A).1.insert (A ++ rest)).1).lookup A = 1 ∧
    (((TrieNode.new.insert A).1.insert (A ++ rest)).1).lookup (A ++ rest) = 1 := by
  have hne : A ≠ A ++ rest := by
    intro he
    have hlen : A.length = A.length + rest.length := by
      simpa using congrArg List.length he
    have hr : rest.length = 0 := by omega
    exact h (List.eq_nil_of_length_eq_zero hr)
  refine ⟨?_, ?_, ?_, ?_⟩
  · rw [insert_ret, lookup_new]
  · rw [insert_ret, lookup_insert_ne A (A ++ rest) _ hne, lookup_new]
  · rw [lookup_insert_ne (A ++ rest) A _ (Ne.symm hne), lookup_insert_self, lookup_new]
  · rw [lookup_insert_self, lookup_insert_ne A (A ++ rest) _ hne, lookup_new]

/-- Witness for C7 at A = "ab", B = "abc". -/
theorem C7_prefix_no_leak_witness :
    (TrieNode.new.insert "ab".data).2 = 1 ∧
    ((TrieNode.new.insert "ab".data).1.insert ("ab".data ++ "c".data)).2 = 1 ∧
    (((TrieNode.new.insert "ab".data).1.insert ("ab".data ++ "c".data)).1).lookup "ab".data = 1 ∧
    (((TrieNode.new.insert "ab".data).1.insert ("ab".data ++ "c".data)).1).lookup
      ("ab".data ++ "c".data) = 1 :=
  C7_prefix_no_leak "ab".data "c".data (by decide)

/-
Accumulator lemmas: evaluation of one step, distribution over append,
and the effect of one duplicate block closed by a non-duplicate line.
-/

theorem runAccum_cons (fp : String) (mlc mcc : Nat) (st : ScanState)
    (locs : List CPLocation) (n : Nat) (b : Bool) (len : Nat)
    (rest : List (Bool × Nat)) :
    runAccum fp mlc mcc st locs n ((b, len) :: rest) =
      runAccum fp mlc mcc (accumStep fp mlc mcc st locs n b len).1
        (accumStep fp mlc mcc st locs n b len).2 (n + 1) rest := rfl

theorem accumStep_true (fp : String) (mlc mcc : Nat) (st : ScanState)
    (locs : List CPLocation) (n len : Nat) :
    accumStep fp mlc mcc st locs n true len =
      (⟨st.comments, true, if st.cp_found then st.start else n, n,
        st.char_count + len⟩, locs) := rfl

theorem accumStep_false (fp : String) (mlc mcc : Nat) (st : ScanState)
    (locs : List CPLocation) (n len : Nat) :
    accumStep fp mlc mcc st locs n false len =
      (⟨st.comments, false, st.start, st.endL, 0⟩,
       if st.cp_found then
         if mlc ≤ st.endL - st.start + 1 ∧ mcc ≤ st.char_count then
           locs ++ [⟨fp, st.start, st.endL⟩]
         else locs
       else locs) := rfl

theorem append_ite (locs : List CPLocation) (p : Prop) [Decidable p] (x : CPLocation) :
    (if p then locs ++ [x] else locs) = locs ++ (if p then [x] else []) := by
  split <;> simp

theorem runAccum_trues (fp : String) (mlc mcc : Nat) (cm : Bool) (s : Nat) :
    ∀ (cs : List Nat) (c e cc n : Nat) (locs : List CPLocation),
      runAccum fp mlc mcc ⟨cm, true, s, e, cc⟩ locs n
          ((c :: cs).map (fun x => (true, x))) =
        (⟨cm, true, s, n + cs.length, cc + (c :: cs).sum⟩, locs) := by
  intro cs
  induction cs with
  | nil =>
      intro c e cc n locs
      rw [List.map_cons, List.map_nil, runAccum_cons, accumStep_true]
      show runAccum fp mlc mcc ⟨cm, true, s, n, cc + c⟩ locs (n + 1) [] = _
      simp [runAccum]
  | cons c2 cs2 ih =>
      intro c e cc n locs
      rw [List.map_cons, runAccum_cons, accumStep_true]
      show runAccum fp mlc mcc ⟨cm, true, s, n, cc + c⟩ locs (n + 1)
          ((c2 :: cs2).map (fun x => (true, x))) = _
      rw [ih]
      simp only [Prod.mk.injEq, ScanState.mk.injEq, List.length_cons, List.sum_cons,
        eq_self_iff_true, true_and, and_true]
      omega

theorem runAccum_append (fp : String) (mlc mcc : Nat) :
    ∀ (xs ys : List (Bool × Nat)) (st : ScanState) (locs : List CPLocation) (n : Nat),
      runAccum fp mlc mcc st locs n (xs ++ ys) =
        runAccum fp mlc mcc (runAccum fp mlc mcc st locs n xs).1
          (runAccum fp mlc mcc st locs n xs).2 (n + xs.length) ys := by
  intro xs
  induction xs with
  | nil => intro ys st locs n; simp [runAccum]
  | cons p rest ih =>
      intro ys st locs n
      obtain ⟨b, len⟩ := p
      rw [List.cons_append, runAccum_cons, ih, runAccum_cons]
      have h : n + 1 + rest.length = n + (rest.length + 1) := by omega
      rw [h, List.length_cons]

theorem runAccum_block (fp : String) (mlc mcc : Nat) (cm : Bool) (s e : Nat)
    (locs : List CPLocation) (n : Nat) (c : Nat) (cs : List Nat) (l1 : Nat) :
    runAccum fp mlc mcc ⟨cm, false, s, e, 0⟩ locs n
        (((c :: cs).map (fun x => (true, x))) ++ [(false, l1)]) =
      (⟨cm, false, n, n + cs.length, 0⟩,
       locs ++ (if mlc ≤ cs.length + 1 ∧ mcc ≤ (c :: cs).sum
                then [⟨fp, n, n + cs.length⟩] else [])) := by
  rw [List.map_cons, List.cons_append, runAccum_cons, accumStep_true]
  show runAccum fp mlc mcc ⟨cm, true, n, n, 0 + c⟩ locs (n + 1)
      ((cs.map (fun x => (true, x))) ++ [(false, l1)]) = _
  cases cs with
  | nil =>
      rw [List.map_nil, List.nil_append, runAccum_cons, accumStep_false]
      show runAccum fp mlc mcc ⟨cm, false, n, n, 0⟩ _ (n + 1 + 1) [] = _
      rw [runAccum]
      simp [Nat.sub_self, append_ite]
  | cons c2 cs2 =>
      rw [runAccum_append, runAccum_trues, runAccum_cons, accumStep_false]
      show runAccum fp mlc mcc
          ⟨cm, false, n, n + 1 + cs2.length, 0⟩ _ _ [] = _
      rw [runAccum]
      have h1 : n + 1 + cs2.length - n + 1 = (c2 :: cs2).length + 1 := by
        simp only [List.length_cons]; omega
      have h2 : n + 1 + cs2.length = n + (c2 :: cs2).length := by
        simp only [List.length_cons]; omega
      have h3 : 0 + c + (c2 :: cs2).sum = (c :: c2 :: cs2).sum := by
        simp only [List.sum_cons]; omega
      rw [h1, h2, h3]
      simp [append_ite]

/-- C2: starting idle with zero character count (the state any
non-duplicate line leaves behind — last two conjuncts), a run of
K = cs.length + 1 consecutive duplicate-flagged lines starting at line
n and closed by a following non-duplicate line yields exactly one span
covering exactly lines n .. n + cs.length iff K reaches the minimum
line count and the summed trimmed byte lengths reach the minimum
character count, and otherwise yields no span for that run. -/
theorem C2_run_emission (fp : String) (mlc mcc : Nat) (cm : Bool) (s e : Nat)
    (locs : List CPLocation) (n : Nat) (c : Nat) (cs : List Nat) (l1 : Nat)
    (st0 : ScanState) (locs0 : List CPLocation) (m len0 : Nat) :
    (runAccum fp mlc mcc ⟨cm, false, s, e, 0⟩ locs n
        (((c :: cs).map (fun x => (true, x))) ++ [(false, l1)])).2 =
      locs ++ (if mlc ≤ cs.length + 1 ∧ mcc ≤ (c :: cs).sum
               then [⟨fp, n, n + cs.length⟩] else []) ∧
    ((accumStep fp mlc mcc st0 locs0 m false len0).1).cp_found = false ∧
    ((accumStep fp mlc mcc st0 locs0 m false len0).1).char_count = 0 := by
  refine ⟨?_, rfl, rfl⟩
  rw [runAccum_block]

/-- C1 (amended): reaching end of file runs no closing step at all —
`parseLines` on the empty tail returns the state unchanged, so a run
still open at EOF is dropped without being evaluated (first conjunct);
the closing-and-evaluating step happens only when a further
non-duplicate line is processed, and then emits the span whenever the
thresholds are met (second conjunct). -/
theorem C1_eof_drops_open_run :
    (∀ (fp : String) (mlc mcc : Nat) (root : TrieNode) (st : ScanState)
        (locs : List CPLocation) (n : Nat),
      parseLines fp mlc mcc root st locs n [] = (root, st, locs)) ∧
    (∀ (fp : String) (mlc mcc : Nat) (st : ScanState) (locs : List CPLocation)
        (n len : Nat),
      st.cp_found = true → mlc ≤ st.endL - st.start + 1 → mcc ≤ st.char_count →
      accumStep fp mlc mcc st locs n false len =
        (⟨st.comments, false, st.start, st.endL, 0⟩,
         locs ++ [⟨fp, st.start, st.endL⟩])) := by
  constructor
  · intro fp mlc mcc root st locs n
    rfl
  · intro fp mlc mcc st locs n len h1 h2 h3
    rw [accumStep_false, h1]
    simp [h2, h3]

/-- Witness for C1 (amended) at a concrete in-run state meeting both
thresholds. -/
theorem C1_eof_drops_open_run_witness :
    accumStep "f" 1 1 ⟨false, true, 2, 3, 5⟩ [] 9 false 0 =
      (⟨false, false, 2, 3, 0⟩, [⟨"f", 2, 3⟩]) :=
  C1_eof_drops_open_run.2 "f" 1 1 ⟨false, true, 2, 3, 5⟩ [] 9 0 rfl (by decide) (by decide)

/-- Counterexample to C1 as stated: the file ["abcd", "abcd"] scanned
with min-line-count 1 and min-char-count 1 ends in-run at line 2; the
trailing run (1 line, 4 bytes) meets both thresholds, yet the span list
is empty — the trailing duplicate block is silently dropped at EOF. -/
theorem C1_counterexample :
    (parse "f" TrieNode.new [] 1 1 ["abcd".data, "abcd".data]).2 = [] ∧
    (1 : Nat) ≤ 2 - 2 + 1 ∧ (1 : Nat) ≤ lineLen (trimChars "abcd".data) := by
  refine ⟨by decide, by decide, by decide⟩

/-- C6 (amended): a blank line inside an otherwise contiguous
duplicate-flagged run splits it into two runs; the accumulator closes
and evaluates each of the two independently against both thresholds
(first conjunct: the two possible spans and their two independent
threshold tests, never a merged span), and a blank raw line is exactly
an is_duplicate = false input to the accumulator, performing no trie
insertion (second conjunct).  A line-comment line, by contrast, sets
comment mode for the remaining lines of the file, so the half of the
run after it is never flagged (see the counterexample). -/
theorem C6_blank_split :
    (∀ (fp : String) (mlc mcc : Nat) (cm : Bool) (s e : Nat) (locs : List CPLocation)
        (n : Nat) (c1 : Nat) (cs1 : List Nat) (lb : Nat) (c2 : Nat) (cs2 : List Nat)
        (l1 : Nat),
      (runAccum fp mlc mcc ⟨cm, false, s, e, 0⟩ locs n
          ((((c1 :: cs1).map (fun x => (true, x))) ++ [(false, lb)]) ++
           (((c2 :: cs2).map (fun x => (true, x))) ++ [(false, l1)]))).2 =
        (locs ++ (if mlc ≤ cs1.length + 1 ∧ mcc ≤ (c1 :: cs1).sum
                  then [⟨fp, n, n + cs1.length⟩] else [])) ++
        (if mlc ≤ cs2.length + 1 ∧ mcc ≤ (c2 :: cs2).sum
         then [⟨fp, n + (cs1.length + 2), n + (cs1.length + 2) + cs2.length⟩]
         else [])) ∧
    (∀ (fp : String) (mlc mcc : Nat) (root : TrieNode) (st : ScanState)
        (locs : List CPLocation) (m : Nat) (raw : List Char),
      trimChars raw = [] →
      processLine fp mlc mcc root st locs m raw =
        (root, (accumStep fp mlc mcc st locs m false 0).1,
               (accumStep fp mlc mcc st locs m false 0).2)) := by
  constructor
  · intro fp mlc mcc cm s e locs n c1 cs1 lb c2 cs2 l1
    rw [runAccum_append, runAccum_block]
    have hlen : (((c1 :: cs1).map (fun x => (true, x))) ++ [(false, lb)]).length =
        cs1.length + 2 := by
      simp
    rw [hlen, runAccum_block]
  · intro fp mlc mcc root st locs m raw h
    obtain ⟨cmf, cpf, s1, e1, cc1⟩ := st
    simp only [processLine, h]
    cases cmf <;> rfl

/-- Witness for C6 (amended): a whitespace-only raw line from an
in-run state behaves as a non-duplicate accumulator input. -/
theorem C6_blank_split_witness :
    processLine "f" 6 80 TrieNode.new ⟨false, true, 2, 4, 90⟩ [] 5 "   ".data =
      (TrieNode.new, (accumStep "f" 6 80 ⟨false, true, 2, 4, 90⟩ [] 5 false 0).1,
       (accumStep "f" 6 80 ⟨false, true, 2, 4, 90⟩ [] 5 false 0).2) :=
  C6_blank_split.2 "f" 6 80 TrieNode.new ⟨false, true, 2, 4, 90⟩ [] 5 "   ".data (by decide)

/-- Counterexample to C6 as stated: with thresholds 1/1 on the file
["abcd", "abcd", "// x", "abcd"], line 2 is duplicate-flagged and the
comment line 3 closes that run (span 2-2); but the line-comment sets
comment mode for the rest of the file, so line 4 is never indexed and
the second part of the interrupted run produces no span at all: one
span is reported, not two. -/
theorem C6_counterexample :
    (parse "f" TrieNode.new [] 1 1
        ["abcd".data, "abcd".data, "// x".data, "abcd".data]).2 =
      [⟨"f", 2, 2⟩] := by decide

/-
Normalizer lemmas for the block-comment claims.
-/

theorem blockOpen_shape (l : List Char) (h : startsWithC blockOpen l = true) :
    startsWithC lineMarker l = false ∧ l.isEmpty = false := by
  cases l with
  | nil => simp [startsWithC, blockOpen] at h
  | cons a l2 =>
      cases l2 with
      | nil =>
          simp [startsWithC, blockOpen] at h
      | cons b l3 =>
          simp only [startsWithC, blockOpen, lineMarker, Bool.and_eq_true,
            beq_iff_eq] at h
          obtain ⟨ha, hb, _⟩ := h
          subst ha; subst hb
          exact ⟨rfl, rfl⟩

/-- C5 (amended): a trimmed line that starts with the block-comment
opener does set comment mode, but when the same line also ends with the
closer the mode is cleared again before eligibility is computed, so a
single-line block comment ends with comment mode off, is eligible for
indexing, and IS inserted into the repetition counter. -/
theorem C5_single_line_block_comment_indexed (fp : String) (mlc mcc : Nat)
    (root : TrieNode) (st : ScanState) (locs : List CPLocation) (n : Nat)
    (raw : List Char)
    (h1 : startsWithC blockOpen (trimChars raw) = true)
    (h2 : endsWithC blockClose (trimChars raw) = true) :
    commentsAfter st.comments (trimChars raw) = false ∧
    eligible (commentsAfter st.comments (trimChars raw)) (trimChars raw) = true ∧
    (processLine fp mlc mcc root st locs n raw).1 = (root.insert (trimChars raw)).1 := by
  obtain ⟨hm, he⟩ := blockOpen_shape (trimChars raw) h1
  have hc : commentsAfter st.comments (trimChars raw) = false := by
    simp only [commentsAfter, h1, h2, hm]
    simp
  have hel : eligible (commentsAfter st.comments (trimChars raw)) (trimChars raw) = true := by
    simp [eligible, hc, he]
  have hel2 : eligible false (trimChars raw) = true := by
    rw [hc] at hel
    exact hel
  refine ⟨hc, hel, ?_⟩
  simp only [processLine, nextRoot, hc, hel2]
  simp

/-- Witness for C5 (amended) on the line "/* hello */" from a state
already in comment mode. -/
theorem C5_single_line_block_comment_indexed_witness :
    commentsAfter (⟨true, false, 0, 0, 0⟩ : ScanState).comments
        (trimChars "/* hello */".data) = false ∧
    eligible (commentsAfter (⟨true, false, 0, 0, 0⟩ : ScanState).comments
        (trimChars "/* hello */".data)) (trimChars "/* hello */".data) = true ∧
    (processLine "f" 6 80 TrieNode.new ⟨true, false, 0, 0, 0⟩ [] 1
        "/* hello */".data).1 =
      (TrieNode.new.insert (trimChars "/* hello */".data)).1 :=
  C5_single_line_block_comment_indexed "f" 6 80 TrieNode.new ⟨true, false, 0, 0, 0⟩ [] 1
    "/* hello */".data (by decide) (by decide)

/-- Counterexample to C5 as stated: after parsing the single line
"/* hello */" the repetition counter holds that exact line text with
occurrence count 1 — the single-line block comment WAS inserted, so it
is not true that such a line is never inserted. -/
theorem C5_counterexample :
    ((parse "f" TrieNode.new [] 1 1 ["/* hello */".data]).1).lookup
      "/* hello */".data = 1 := by decide

set_option maxRecDepth 100000 in
/-- C4 (amended): on the exact scenario — two files, each the same 8
distinct 12-character lines (96 bytes), default thresholds 6/80 — the
engine reports no spans at all: the first file's lines are first
occurrences and never duplicate-flagged, and the second file's 8-line
run is still open at EOF and dropped (first conjunct).  The duplication
is detected across files through the shared counter: if each file ends
with one extra non-duplicate line, exactly one span is reported, for
the second file only, covering its 8 duplicated lines (second
conjunct). -/
theorem C4_cross_file :
    scanAll 6 80 [⟨"a.java", true, lines8, false⟩,
                  ⟨"b.java", true, lines8, false⟩] = [] ∧
    scanAll 6 80 [⟨"a.java", true, lines8 ++ ["x1".data], false⟩,
                  ⟨"b.java", true, lines8 ++ ["x2".data], false⟩] =
      [⟨"b.java", 1, 8⟩] := by
  refine ⟨by decide, by decide⟩

set_option maxRecDepth 100000 in
/-- Counterexample to C4 as stated: the scenario of the claim — two
files of the same 8 lines of 12 characters each (96 bytes ≥ 80),
defaults 6/80 — produces zero spans, not two: no span for either
file. -/
theorem C4_counterexample :
    scanAll 6 80 [⟨"a.java", true, lines8, false⟩,
                  ⟨"b.java", true, lines8, false⟩] = [] ∧
    lines8.length = 8 ∧ lines8.map lineLen = List.replicate 8 12 := by
  refine ⟨by decide, by decide, by decide⟩

/-- C9 (amended): a file whose open fails is skipped whole — the trie,
the span list and the remaining scan are exactly as if the file were
absent (first conjunct); a file whose read fails after some lines were
read keeps every effect of those lines, including any spans already
emitted for that file, and the scan continues with the remaining files
(second conjunct); in both cases the error value itself is discarded by
the `.ok()` in main. -/
theorem C9_failure_recovery :
    (∀ (mlc mcc : Nat) (root : TrieNode) (locs : List CPLocation) (p : String)
        (ls : List (List Char)) (b : Bool) (rest : List SourceFile),
      scanGo mlc mcc root locs (⟨p, false, ls, b⟩ :: rest) =
        scanGo mlc mcc root locs rest) ∧
    (∀ (mlc mcc : Nat) (root : TrieNode) (locs : List CPLocation) (p : String)
        (ls : List (List Char)) (rest : List SourceFile),
      scanGo mlc mcc root locs (⟨p, true, ls, true⟩ :: rest) =
        scanGo mlc mcc (parse p root locs mlc mcc ls).1
          (parse p root locs mlc mcc ls).2 rest) := by
  constructor
  · intro mlc mcc root locs p ls b rest
    rfl
  · intro mlc mcc root locs p ls rest
    rfl

set_option maxRecDepth 100000 in
/-- Counterexample to C9 as stated: file "b" suffers a read failure
after its two lines were read, yet the span 1-1 found in it before the
failure is still reported — it is not true that no duplicate spans are
reported for a file whose read fails. -/
theorem C9_counterexample :
    scanAll 1 1 [⟨"a", true, ["abcd".data], false⟩,
                 ⟨"b", true, ["abcd".data, "zzzz".data], true⟩] =
      [⟨"b", 1, 1⟩] := by decide

/-
Ranking lemmas: stable insertion sort by span length is a permutation
and produces an ascending list.
-/

theorem length_insertSorted (x : CPLocation) :
    ∀ l : List CPLocation, (insertSorted x l).length = l.length + 1 := by
  intro l
  induction l with
  | nil => rfl
  | cons y ys ih =>
      simp only [insertSorted]
      split
      · simp
      · simp [ih]

theorem perm_insertSorted (x : CPLocation) :
    ∀ l : List CPLocation, (insertSorted x l).Perm (x :: l) := by
  intro l
  induction l with
  | nil => exact List.Perm.refl _
  | cons y ys ih =>
      simp only [insertSorted]
      split
      · exact List.Perm.refl _
      · exact (ih.cons y).trans (List.Perm.swap x y ys)

theorem perm_sortByLen :
    ∀ l : List CPLocation, (sortByLen l).Perm l := by
  intro l
  induction l with
  | nil => exact List.Perm.refl _
  | cons x xs ih => exact (perm_insertSorted x (sortByLen xs)).trans (ih.cons x)

theorem sorted_insertSorted (x : CPLocation) :
    ∀ l : List CPLocation,
      List.Pairwise (fun a b => spanLen a ≤ spanLen b) l →
      List.Pairwise (fun a b => spanLen a ≤ spanLen b) (insertSorted x l) := by
  intro l
  induction l with
  | nil => intro _; simp [insertSorted]
  | cons y ys ih =>
      intro h
      rw [List.pairwise_cons] at h
      obtain ⟨hy, hys⟩ := h
      by_cases hxy : spanLen x ≤ spanLen y
      · rw [insertSorted, if_pos hxy]
        refine List.Pairwise.cons ?_ (List.Pairwise.cons hy hys)
        intro z hz
        rcases List.mem_cons.mp hz with hz | hz
        · rw [hz]; exact hxy
        · exact le_trans hxy (hy z hz)
      · rw [insertSorted, if_neg hxy]
        refine List.Pairwise.cons ?_ (ih hys)
        intro z hz
        have hz2 : z ∈ x :: ys := (perm_insertSorted x ys).mem_iff.mp hz
        rcases List.mem_cons.mp hz2 with hz2 | hz2
        · rw [hz2]; exact Nat.le_of_not_le hxy
        · exact hy z hz2

theorem sorted_sortByLen :
    ∀ l : List CPLocation,
      List.Pairwise (fun a b => spanLen a ≤ spanLen b) (sortByLen l) := by
  intro l
  induction l with
  | nil => simp [sortByLen]
  | cons x xs ih => exact sorted_insertSorted x (sortByLen xs) ih

/-- C8: the reporter truncates to exactly min(count, top-N) spans, the
reported list is sorted descending by span length (end - start + 1),
all spans are returned when fewer than top-N exist (the report is then
a permutation of the whole collection), and on spans of lengths
[3, 10, 1, 7] with top-N = 2 the reported lengths are [10, 7]. -/
theorem C8_rank_truncate (locs : List CPLocation) (top : Nat) :
    (rankReport locs top).length = min locs.length top ∧
    List.Pairwise (fun a b => spanLen b ≤ spanLen a) (rankReport locs top) ∧
    (locs.length ≤ top → (rankReport locs top).Perm locs) ∧
    (rankReport demoSpans 2).map spanLen = [10, 7] := by
  have hs : (sortByLen locs).length = locs.length := (perm_sortByLen locs).length_eq
  refine ⟨?_, ?_, ?_, by decide⟩
  · rw [rankReport, List.length_take, List.length_reverse, hs]
    exact Nat.min_eq_left (Nat.min_le_left _ _)
  · have h1 := sorted_sortByLen locs
    have h2 : List.Pairwise (fun a b => spanLen b ≤ spanLen a)
        ((sortByLen locs).reverse) := List.pairwise_reverse.mpr h1
    exact List.Pairwise.sublist (List.take_sublist _ _) h2
  · intro h
    have hmin : min locs.length top = locs.length := Nat.min_eq_left h
    rw [rankReport, hmin, List.take_of_length_le (by simp [hs])]
    exact ((sortByLen locs).reverse_perm).trans (perm_sortByLen locs)

/-- Witness for C8 with four spans and top-N = 5: all four are
returned, as a permutation of the collection. -/
theorem C8_rank_truncate_witness :
    (rankReport demoSpans 5).length = min demoSpans.length 5 ∧
    (rankReport demoSpans 5).Perm demoSpans :=
  ⟨(C8_rank_truncate demoSpans 5).1, (C8_rank_truncate demoSpans 5).2.2.1 (by decide)⟩

/-
Byte-length lemmas for C10.
-/

theorem two_le_utf8Size (c : Char) (h : 128 ≤ c.toNat) : 2 ≤ c.utf8Size := by
  unfold Char.utf8Size
  dsimp only
  split
  · rename_i h1
    exfalso
    have h2 : c.val.toNat ≤ 127 := h1
    have h3 : c.toNat = c.val.toNat := rfl
    omega
  · split
    · omega
    · split
      · omega
      · omega

theorem length_le_lineLen :
    ∀ l : List Char, l.length ≤ lineLen l := by
  intro l
  induction l with
  | nil => simp [lineLen]
  | cons c cs ih =>
      have hc := Char.utf8Size_pos c
      simp only [lineLen, List.map_cons, List.sum_cons, List.length_cons]
      simp only [lineLen] at ih
      omega

theorem length_lt_lineLen (l : List Char) (c : Char) (hm : c ∈ l)
    (h : 128 ≤ c.toNat) : l.length < lineLen l := by
  induction l with
  | nil => cases hm
  | cons d ds ih =>
      rcases List.mem_cons.mp hm with hd | hd
      · have h2 : 2 ≤ d.utf8Size := by
          rw [hd] at h
          exact two_le_utf8Size d h
        have h3 := length_le_lineLen ds
        simp only [lineLen, List.map_cons, List.sum_cons, List.length_cons]
        simp only [lineLen] at h3
        omega
      · have h2 := ih hd
        have h4 := Char.utf8Size_pos d
        simp only [lineLen, List.map_cons, List.sum_cons, List.length_cons]
        simp only [lineLen] at h2
        omega

/-- C10: the running character count of `parse` is a count of UTF-8
bytes, not of characters: the five-character line of two-byte
characters "ééééé" has trimmed length 5 but contributes lineLen = 10,
and already meets a min-char-count of 10 (first three conjuncts); in
general any line containing a non-ASCII character contributes strictly
more than its number of characters (last conjunct). -/
theorem C10_byte_threshold :
    ((parse "f" TrieNode.new [] 1 10 ["ééééé".data, "ééééé".data, []]).2 =
        [⟨"f", 2, 2⟩] ∧
      (trimChars "ééééé".data).length = 5 ∧
      lineLen (trimChars "ééééé".data) = 10) ∧
    (∀ (l : List Char) (c : Char), c ∈ l → 128 ≤ c.toNat →
      l.length < lineLen l) := by
  refine ⟨⟨by decide, by decide, by decide⟩, ?_⟩
  intro l c hm h
  exact length_lt_lineLen l c hm h

/-- Witness for C10 on the one-character non-ASCII line "é". -/
theorem C10_byte_threshold_witness :
    ("é".data).length < lineLen "é".data :=
  C10_byte_threshold.2 "é".data (Char.ofNat 233) (by decide) (by decide)
